import Mathlib

/-!
Verification development for the `tk-rumba` engine hooks.

The repository is a set of adapter scripts between the Shotgun/sgtk
pipeline framework and the Rumba animation application.  This file gives a
shallow embedding of the hook code that the claims refer to:

* `hooks/tk-multi-breakdown/tk-rumba_scene_operations.py`
  (`find_nodes_with_reference`, `find_nodes_with_plug`,
  `get_node_file_path`, `set_node_file_path`, `BreakdownSceneItem`,
  `scan_scene`, `update`);
* `hooks/tk-multi-setframerange/frame_operations_tk-rumba.py`
  (`get_frame_range`, `set_frame_range`);
* `hooks/tk-multi-loader2/tk-rumba_actions.py`
  (`execute_action`, `execute_multiple_actions`, the extension filters and
  the three import/reference helpers);
* `hooks/tk-multi-publish2/basic/publish_base.py`
  (`_session_path`, `_get_save_as_action`, `session_validate`);
* `hooks/tk-multi-publish2/basic/collector.py`
  (the asset-name sanitization shared by the three per-asset collectors).

Modelling conventions.

The Rumba scripting API (`rumba`, `rumbapy`, `rumba_media`) is external to
the repository.  It is modelled as follows:

* a document node is a tree (`RNode`) carrying a name, a type name, a
  reference filename (the empty string models the absent/None reference)
  and a list of named plugs whose values are strings;
* `node.full_document_name()` is the dot-separated path of names from the
  document root down to the node, and `document.child(full_name)` resolves
  such a full name to the (first, in pre-order) node carrying it — this is
  the resolution the breakdown `update` hook relies on;
* Python object mutation becomes functional tree rewriting: looking a node
  up by full name and mutating it is `setAtNode`, which rewrites the first
  pre-order node whose full name matches;
* Python truthiness of an optional string (`if ref_path:`) is
  `pyTruthy`: `None` and the empty string are falsy;
* side effects against the application (modify_begin/modify_end brackets,
  reference/import calls, plug writes) are recorded as a trace of `REvent`
  values, so that bracketing and "no call was performed" statements are
  about the trace.
-/

/-- An apostrophe character as a string (used to reproduce string literals
from the source that contain single quotes). -/
def sglq : String := (Char.ofNat 39).toString

/-- Python truthiness of an optional string: `None` and `""` are falsy,
any non-empty string is truthy. -/
def pyTruthy : Option String → Bool
  | none => false
  | some s => s ≠ ""

/-- One observable side effect against the Rumba application: a
`rumba.modify_begin(label)` call, a `rumba.modify_end()` call, or a state
mutation/API call tagged with the API entry point and its main argument. -/
inductive REvent where
  | modifyBegin (label : String)
  | modifyEnd
  | mutEv (tag : String) (arg : String)
deriving DecidableEq

/-- Scans a trace keeping the current bracket depth: `modify_begin`
increments it, `modify_end` decrements it (failing at depth 0), and a
mutation is only legal at positive depth.  Returns the final depth, or
`none` if a mutation or an end occurred outside an open bracket. -/
def scanEv : Nat → List REvent → Option Nat
  | d, [] => some d
  | d, .modifyBegin _ :: tr => scanEv (d + 1) tr
  | d, .modifyEnd :: tr => if d = 0 then none else scanEv (d - 1) tr
  | d, .mutEv _ _ :: tr => if d = 0 then none else scanEv d tr

/-- A trace is well bracketed when every mutation happens at positive
bracket depth, no `modify_end` is unmatched, and every `modify_begin` is
eventually matched (final depth 0). -/
def wellBracketed (tr : List REvent) : Bool := scanEv 0 tr == some 0

/-- Every mutation in the trace happens after an (as yet unclosed)
`modify_begin`; brackets opened at the end may still be pending.  This is
the guarantee that survives an exception escaping mid-bracket. -/
def mutsInsideOpenBracket (tr : List REvent) : Bool := (scanEv 0 tr).isSome

/-- Whether the trace contains any mutation event. -/
def hasMut (tr : List REvent) : Bool := tr.any (fun e => match e with | .mutEv _ _ => true | _ => false)

/-- Whether the trace contains a `modify_end` event. -/
def hasEnd (tr : List REvent) : Bool := tr.any (fun e => match e with | .modifyEnd => true | _ => false)

/-! ## The Rumba document model -/

/-- A node of a Rumba document: a name, a type name (`"Asset"`,
`"UsdAsset"`, `"Media"`, ...), the filename it was referenced from (empty
string when it is not a referenced node), its plugs (name/value pairs,
values modelled as the string `as_string` returns) and its children.  The
active document itself is the root node of such a tree. -/
inductive RNode where
  | mk (name type_name reference_filename : String)
       (plugs : List (String × String)) (children : List RNode)

/-- Name of a node. -/
def RNode.name : RNode → String
  | .mk nm _ _ _ _ => nm

/-- Type name of a node, as `node.type_name()` returns it. -/
def RNode.type_name : RNode → String
  | .mk _ tn _ _ _ => tn

/-- The filename the node was referenced from, as
`node.reference_filename()` returns it; `""` models None/absent. -/
def RNode.reference_filename : RNode → String
  | .mk _ _ rf _ _ => rf

/-- The plugs of a node. -/
def RNode.plugs : RNode → List (String × String)
  | .mk _ _ _ pl _ => pl

/-- The children of a node, as `node.children()` returns them. -/
def RNode.children : RNode → List RNode
  | .mk _ _ _ _ ch => ch

/-- Models `node.has_plug(plug_name)`. -/
def RNode.has_plug (n : RNode) (plug_name : String) : Bool :=
  n.plugs.any (fun p => p.1 == plug_name)

/-- First value stored under a plug name, or `""` when absent: models
`node.plug(name).as_string()`. -/
def plugLookup : List (String × String) → String → String
  | [], _ => ""
  | (k, v) :: ps, key => if k == key then v else plugLookup ps key

/-- Models `node.plug(name).as_string()`. -/
def RNode.plug_as_string (n : RNode) (plug_name : String) : String :=
  plugLookup n.plugs plug_name

/-- Models `node.plug(name).set_value(v)`: rewrites the value of the first
plug with the given name, leaving the list unchanged when absent. -/
def setPlugVal : List (String × String) → String → String → List (String × String)
  | [], _, _ => []
  | (k, v) :: ps, key, val =>
    if k == key then (k, val) :: ps else (k, v) :: setPlugVal ps key val

/-- Full document name of a node placed under a (possibly empty) parent
full name: names joined with dots, as `node.full_document_name()`. -/
def joinName (pre nm : String) : String :=
  if pre = "" then nm else pre ++ "." ++ nm

mutual

/-- Pre-order traversal of a node, pairing every node of the subtree with
its full document name.  `annotNode "" doc` lists every node of the active
document in the order the recursive collectors of
`tk-rumba_scene_operations.py` visit them (node first, then its children
left to right). -/
def annotNode (pre : String) : RNode → List (String × RNode)
  | .mk nm tn rf pl ch =>
    (joinName pre nm, .mk nm tn rf pl ch) :: annotList (joinName pre nm) ch

/-- Pre-order traversal of a forest (see `annotNode`). -/
def annotList (pre : String) : List RNode → List (String × RNode)
  | [] => []
  | c :: cs => annotNode pre c ++ annotList pre cs

end

/-- Source: `find_nodes_with_reference(node)` — recursively collects, in
pre-order, the nodes whose `reference_filename()` is truthy.  The source
threads an accumulator through the recursion; the result is exactly the
pre-order nodes passing the test, which is how it is rendered here (the
traversal additionally carries each node's full document name, standing in
for Python object identity). -/
def find_nodes_with_reference (pre : String) (node : RNode) : List (String × RNode) :=
  (annotNode pre node).filter (fun x => x.2.reference_filename ≠ "")

/-- Source: `find_nodes_with_plug(node, plug_name, type_names)` —
recursively collects, in pre-order, the nodes having the plug, filtered by
type names when given.  The Python guard is
`(type_names and node.type_name() in type_names) or type_names is None`,
so an empty `type_names` list (falsy) collects nothing. -/
def find_nodes_with_plug (pre : String) (node : RNode) (plug_name : String)
    (type_names : Option (List String)) : List (String × RNode) :=
  (annotNode pre node).filter
    (fun x =>
      x.2.has_plug plug_name &&
        match type_names with
        | none => true
        | some ts => decide (x.2.type_name ∈ ts))

/-- Source: `get_node_file_path(node)` — the file path referenced by a
node, per supported type (`Asset`, `UsdAsset`, `Media`); `none` models the
implicit Python `None` returned for any other type. -/
def get_node_file_path (node : RNode) : Option String :=
  if node.type_name = "Asset" then some node.reference_filename
  else if node.type_name = "UsdAsset" then some (node.plug_as_string "file_path")
  else if node.type_name = "Media" then some (node.plug_as_string "file")
  else none

/-- Source: `set_node_file_path(node, path)` — sets the file path
referenced by a node, per supported type: `replace_reference` for `Asset`
(modelled as rewriting the reference filename), a plug write for
`UsdAsset` and `Media`, and a no-op for any other type. -/
def set_node_file_path (node : RNode) (path : String) : RNode :=
  match node with
  | .mk nm tn rf pl ch =>
    if tn = "Asset" then .mk nm tn path pl ch
    else if tn = "UsdAsset" then .mk nm tn rf (setPlugVal pl "file_path" path) ch
    else if tn = "Media" then .mk nm tn rf (setPlugVal pl "file" path) ch
    else .mk nm tn rf pl ch

/-- Source: the `ITEM_COLORS` table of `tk-rumba_scene_operations.py`. -/
def ITEM_COLORS : List (String × String) :=
  [("Asset", "#e7a81d"), ("UsdAsset", "#a8e71d"), ("Media", "#1da8e7"),
   ("default", "#a81de7")]

/-- Source: `BreakdownSceneItem.__new__` — a rich string shown in the
breakdown UI, carrying the node's full document name and type as
metadata (`item.node`, `item.node_type`). -/
structure BreakdownSceneItem where
  text : String
  node : String
  node_type : String
deriving DecidableEq

/-- The HTML text `BreakdownSceneItem.__new__` builds from the item color,
the node's full document name and its type name. -/
def breakdownItemText (color node_name node_type : String) : String :=
  "<span style=" ++ sglq ++ "color:" ++ color ++ sglq ++ "><b>" ++ node_name ++
    "</b></span><br/><nobr><b><sub>" ++ node_type ++ "</sub></b></nobr>"

/-- Models `ITEM_COLORS.get(node_type, ITEM_COLORS["default"])`. -/
def itemColor (node_type : String) : String :=
  match ITEM_COLORS.find? (fun p => p.1 == node_type) with
  | some p => p.2
  | none => "#a81de7"

/-- Constructs the `BreakdownSceneItem` for a node with the given full
document name (see `BreakdownSceneItem.__new__`). -/
def mkBreakdownSceneItem (full_name : String) (node : RNode) : BreakdownSceneItem :=
  { text := breakdownItemText (itemColor node.type_name) full_name node.type_name
    node := full_name
    node_type := node.type_name }

/-- A value stored in one of the scan-result dictionaries: either a plain
string or a `BreakdownSceneItem`. -/
inductive DictVal where
  | str (s : String)
  | item (it : BreakdownSceneItem)
deriving DecidableEq

/-- A scan-result dictionary, modelled as the key/value list of the dict
literal the source appends to `refs`. -/
abbrev ScanEntry := List (String × DictVal)

/-- The node list `scan_scene` builds before the collection loop:
`find_nodes_with_reference(active_document)` followed by the `UsdAsset`
nodes with a `file_path` plug and the `Media` nodes with a `file` plug. -/
def scanNodes (doc : RNode) : List (String × RNode) :=
  find_nodes_with_reference "" doc ++
    find_nodes_with_plug "" doc "file_path" (some ["UsdAsset"]) ++
    find_nodes_with_plug "" doc "file" (some ["Media"])

/-- The dictionary `scan_scene` appends for one node whose resolved path
is truthy. -/
def mkScanEntry (full_name : String) (node : RNode) (ref_path : String) : ScanEntry :=
  [("node", .item (mkBreakdownSceneItem full_name node)),
   ("type", .str "file"),
   ("path", .str ref_path)]

/-- The `for node in nodes:` loop of `scan_scene`: appends a dictionary
for every node whose `get_node_file_path` is truthy, in node order. -/
def scanLoop : List (String × RNode) → List ScanEntry
  | [] => []
  | (fn, n) :: rest =>
    match get_node_file_path n with
    | some p => if p ≠ "" then mkScanEntry fn n p :: scanLoop rest else scanLoop rest
    | none => scanLoop rest

/-- Source: `BreakdownSceneOperations.scan_scene` — collects the
referenced nodes of the active document and returns one dictionary per
node with a truthy resolved path; returns `[]` when there is no active
document. -/
def scan_scene (active_document : Option RNode) : List ScanEntry :=
  match active_document with
  | none => []
  | some doc => scanLoop (scanNodes doc)

mutual

/-- Models `active_document.child(full_name)` followed by
`set_node_file_path(node, path)`: rewrites the first pre-order node whose
full document name is `fn`, returning the new tree and whether the node
was found (`false` standing for `child` returning no node, which makes
`set_node_file_path` raise in Python). -/
def setAtNode (pre fn path : String) : RNode → RNode × Bool
  | .mk nm tn rf pl ch =>
    if joinName pre nm = fn then
      (set_node_file_path (.mk nm tn rf pl ch) path, true)
    else
      let r := setAtList (joinName pre nm) fn path ch
      (.mk nm tn rf pl r.1, r.2)

/-- Forest version of `setAtNode`; only the first match is rewritten. -/
def setAtList (pre fn path : String) : List RNode → List RNode × Bool
  | [] => ([], false)
  | c :: cs =>
    let rc := setAtNode pre fn path c
    if rc.2 then (rc.1 :: cs, true)
    else
      let rs := setAtList pre fn path cs
      (c :: rs.1, rs.2)

end

/-- Dictionary lookup in a scan item (`i["path"]`, `i["node"]`). -/
def entryGet (e : ScanEntry) (key : String) : Option DictVal :=
  match e.find? (fun kv => kv.1 == key) with
  | some kv => some kv.2
  | none => none

/-- The body of the `for i in items:` loop of
`BreakdownSceneOperations.update`, run over the remaining items: reads
`i["path"]` and `i["node"].node`, resolves the node in the document and
sets its file path.  A missing key, a `"node"` value that is not a
`BreakdownSceneItem`, or an unresolvable node name models the exception
Python would raise at that point (KeyError / AttributeError); the trace
records the mutations performed before the failure. -/
def updateLoop (doc : RNode) : List ScanEntry → List REvent × Except String RNode
  | [] => ([], .ok doc)
  | i :: rest =>
    match entryGet i "path", entryGet i "node" with
    | some (.str new_path), some (.item it) =>
      let r := setAtNode "" it.node new_path doc
      if r.2 then
        let t := updateLoop r.1 rest
        (.mutEv "set_node_file_path" it.node :: t.1, t.2)
      else
        ([], .error "AttributeError")
    | _, _ => ([], .error "KeyError")

/-- Source: `BreakdownSceneOperations.update(items)` — when a document is
active, brackets the per-item updates in
`rumba.modify_begin("Shotgun Update References")` / `rumba.modify_end()`.
Returns the event trace together with the resulting document (or the
error that escaped the loop, in which case `modify_end` is never
reached). -/
def update (active_document : Option RNode) (items : List ScanEntry) :
    List REvent × Except String (Option RNode) :=
  match active_document with
  | none => ([], .ok none)
  | some doc =>
    let t := updateLoop doc items
    match t.2 with
    | .ok doc2 =>
      (.modifyBegin "Shotgun Update References" :: t.1 ++ [.modifyEnd], .ok (some doc2))
    | .error e =>
      (.modifyBegin "Shotgun Update References" :: t.1, .error e)

/-- A document is well named when the full document names of its nodes are
pairwise distinct — the Rumba invariant that makes
`document.child(full_name)` resolution unambiguous. -/
def wellNamed (doc : RNode) : Prop :=
  ((annotNode "" doc).map Prod.fst).Nodup

instance (doc : RNode) : Decidable (wellNamed doc) := by
  unfold wellNamed; infer_instance

/-! ## Frame-range hook (`frame_operations_tk-rumba.py`) -/

/-- The frame-range state of a Rumba document: the `start_frame`,
`end_frame`, `range_start_frame` and `range_end_frame` plugs, with integer
values (`value().as_int()` / `set_value`). -/
structure FrameDoc where
  start_frame : Int
  end_frame : Int
  range_start_frame : Int
  range_end_frame : Int
deriving DecidableEq

/-- Source: `FrameOperation.get_frame_range` — reads
`start_frame`/`end_frame` from the active document, defaulting both to 0
when no document is active. -/
def get_frame_range (active_document : Option FrameDoc) : Int × Int :=
  match active_document with
  | none => (0, 0)
  | some d => (d.start_frame, d.end_frame)

/-- Source: `FrameOperation.set_frame_range(in_frame, out_frame)` — when a
document is active, writes the four frame plugs inside a
`modify_begin("Shotgun Update Frame Range")` / `modify_end()` bracket;
does nothing at all otherwise.  Returns the new document state and the
event trace. -/
def set_frame_range (active_document : Option FrameDoc) (in_frame out_frame : Int) :
    Option FrameDoc × List REvent :=
  match active_document with
  | none => (none, [])
  | some _ =>
    (some { start_frame := in_frame, end_frame := out_frame,
            range_start_frame := in_frame, range_end_frame := out_frame },
     [.modifyBegin "Shotgun Update Frame Range",
      .mutEv "start_frame.set_value" (toString in_frame),
      .mutEv "end_frame.set_value" (toString out_frame),
      .mutEv "range_start_frame.set_value" (toString in_frame),
      .mutEv "range_end_frame.set_value" (toString out_frame),
      .modifyEnd])

/-! ## Loader actions hook (`tk-rumba_actions.py`) -/

/-- Source: `RUMBA_SUPPORTED_FORMATS`. -/
def RUMBA_SUPPORTED_FORMATS : List String :=
  [".rumbanode", ".abc", ".usd", ".usda", ".usdc"]

/-- The final path component (after the last `/`), as `os.path.basename`
on the slash-normalized paths the hook works with. -/
def lastComponent (s : List Char) : List Char :=
  s.foldl (fun acc c => if c = '/' then [] else acc ++ [c]) []

/-- The suffix starting at the last `.` of the list, or `[]` when there is
no dot. -/
def extAfterDots (rest : List Char) : List Char :=
  rest.foldl (fun acc c => if c = '.' then [c] else if acc.isEmpty then [] else acc ++ [c]) []

/-- The extension `os.path.splitext(path)[1]`: the suffix of the last path
component starting at its last dot, where the leading dots of the
component never start an extension (so `".bashrc"` has no extension). -/
def splitextExt (path : String) : String :=
  ⟨extAfterDots ((lastComponent path.data).dropWhile (· = '.'))⟩

/-- ASCII lowercasing of a string, modelling `str.lower()` on the ASCII
extensions involved here. -/
def strLower (s : String) : String := ⟨s.data.map Char.toLower⟩

/-- Source: `RumbaActions._is_a_supported_extension` — the lowercased
`splitext` extension is among `RUMBA_SUPPORTED_FORMATS`. -/
def is_a_supported_extension (path : String) : Bool :=
  RUMBA_SUPPORTED_FORMATS.contains (strLower (splitextExt path))

/-- Environment the loader hook runs against: whether a document is
active, which files exist on disk, the media formats reported by
`rumba_media` (an external list: audio + image + video formats), and the
optional `code` field of the publish data (used as the media layer
name). -/
structure LoaderEnv where
  hasDoc : Bool
  fileExists : String → Bool
  mediaFormats : List String
  publishCode : Option String

/-- Source: `RumbaActions._is_a_supported_media_extension` — the
lowercased `splitext` extension is among the media formats. -/
def is_a_supported_media_extension (path : String) (env : LoaderEnv) : Bool :=
  env.mediaFormats.contains (strLower (splitextExt path))

/-- Source: `RumbaActions._reference_into_current_document` — when a
document is active and the file exists, calls `rumba.reference` inside a
`modify_begin("Shotgun Reference File")` bracket; otherwise only logs. -/
def reference_into_current_document (path : String) (env : LoaderEnv) : List REvent :=
  if env.hasDoc then
    if env.fileExists path then
      [.modifyBegin "Shotgun Reference File", .mutEv "rumba.reference" path, .modifyEnd]
    else []
  else []

/-- Source: `RumbaActions._import_into_current_document` — when a document
is active and the file exists, calls `rumba.load_node` inside a
`modify_begin("Shotgun Import File")` bracket; otherwise only logs. -/
def import_into_current_document (path : String) (env : LoaderEnv) : List REvent :=
  if env.hasDoc then
    if env.fileExists path then
      [.modifyBegin "Shotgun Import File", .mutEv "rumba.load_node" path, .modifyEnd]
    else []
  else []

/-- Source: `RumbaActions._import_media_into_new_media_layer` — when a
document is active and the file exists, creates a media layer named after
`sg_publish_data["code"]` (falling back to the file basename), loads the
media and adds the clip at the current frame, all inside a
`modify_begin("Shotgun Import File")` bracket. -/
def import_media_into_new_media_layer (path : String) (env : LoaderEnv) : List REvent :=
  if env.hasDoc then
    if env.fileExists path then
      [.modifyBegin "Shotgun Import File",
       .mutEv "rumbapy.add_media_layer" (env.publishCode.getD ⟨lastComponent path.data⟩),
       .mutEv "rumbapy.get_media" path,
       .mutEv "rumbapy.add_media_clip" path,
       .modifyEnd]
    else []
  else []

/-- The message of the exception `execute_action` raises for an
unsupported extension. -/
def unsupportedExtMsg (path : String) : String :=
  "Unsupported file extension for " ++ sglq ++ path ++ sglq ++ "!"

/-- Source: `RumbaActions.execute_action(name, params, sg_publish_data)` —
dispatches on the action name; for `reference` and `import` it raises
before doing anything when the extension is not in
`RUMBA_SUPPORTED_FORMATS`, for `import_media` when it is not a supported
media format; otherwise it runs the corresponding helper.  The `path`
argument stands for the already-resolved publish path
(`get_publish_path`, with separators normalized to `/`).  Returns the
event trace and the raised error, if any. -/
def execute_action (name path : String) (env : LoaderEnv) : List REvent × Except String Unit :=
  if name = "reference" then
    if !is_a_supported_extension path then ([], .error (unsupportedExtMsg path))
    else (reference_into_current_document path env, .ok ())
  else if name = "import" then
    if !is_a_supported_extension path then ([], .error (unsupportedExtMsg path))
    else (import_into_current_document path env, .ok ())
  else if name = "import_media" then
    if !is_a_supported_media_extension path env then ([], .error (unsupportedExtMsg path))
    else (import_media_into_new_media_layer path env, .ok ())
  else ([], .ok ())

/-- One entry of the `actions` list handed to `execute_multiple_actions`:
the action name and the resolved publish path of its `sg_publish_data`
(params are always `None` for this hook and are omitted). -/
structure LoaderAction where
  name : String
  path : String

/-- Source: `RumbaActions.execute_multiple_actions(actions)` — dispatches
each action dict to `execute_action` in list order; an exception raised by
`execute_action` propagates, so the remaining actions are not executed.
Returns the concatenated event trace of the executed actions and the
error of the first failing action, if any. -/
def execute_multiple_actions (env : LoaderEnv) : List LoaderAction → List REvent × Option String
  | [] => ([], none)
  | a :: rest =>
    match execute_action a.name a.path env with
    | (tr, .ok ()) =>
      let t := execute_multiple_actions env rest
      (tr ++ t.1, t.2)
    | (_, .error e) => ([], some e)

/-! ## Publish base plugin (`publish_base.py`) -/

/-- Source: `_session_path()` — the active document filename, with
`"untitled"` mapped to `None` (the session has never been saved). -/
def session_path_of (active_document_filename : String) : Option String :=
  if active_document_filename = "untitled" then none else some active_document_filename

/-- The remediation action attached to a validation error log: the
`_get_save_as_action()` dict, whose callback is the workfiles2 file-save
dialog when that app is configured and plain save-as otherwise. -/
structure LogAction where
  label : String
  tooltip : String
  usesWorkfiles2Dialog : Bool
deriving DecidableEq

/-- Source: `_get_save_as_action()`. -/
def get_save_as_action (hasWorkfiles2 : Bool) : LogAction :=
  { label := "Save As...", tooltip := "Save the current session",
    usesWorkfiles2Dialog := hasWorkfiles2 }

/-- Properties bag of a publish item (string values only are needed
here). -/
abbrev ItemProps := List (String × String)

/-- Python `dict[key] = value`: replaces the first existing binding, or
appends a new one. -/
def propsSet : ItemProps → String → String → ItemProps
  | [], key, val => [(key, val)]
  | (k, v) :: ps, key, val =>
    if k = key then (k, val) :: ps else (k, v) :: propsSet ps key val

/-- The error message `session_validate` logs and raises for an unsaved
session. -/
def sessionNotSavedMsg : String :=
  "The Rumba session has not been saved. Please save your session before publishing."

/-- Source: `RumbaBasePublishPlugin.session_validate(settings, item)` —
raises (after logging an error that carries the save-as action) when
`_session_path()` is falsy, i.e. when the document filename maps to `None`
(`"untitled"`) or is empty; otherwise stores the normalized session path
in `item.properties["path"]` and returns `True`.  `normalize` stands for
the external `sgtk.util.ShotgunPath.normalize`. -/
def session_validate (normalize : String → String) (hasWorkfiles2 : Bool)
    (active_document_filename : String) (props : ItemProps) :
    Except (String × LogAction) ItemProps :=
  match session_path_of active_document_filename with
  | none => .error (sessionNotSavedMsg, get_save_as_action hasWorkfiles2)
  | some p =>
    if p = "" then .error (sessionNotSavedMsg, get_save_as_action hasWorkfiles2)
    else .ok (propsSet props "path" (normalize p))

/-! ## Collector asset-name sanitization (`collector.py`) -/

/-- The character class of the pattern `[\W_]` (with `re.UNICODE`,
modelled over ASCII): every character that is not alphanumeric, plus the
underscore.  Equivalently, everything but the alphanumerics. -/
def inClassWU (c : Char) : Bool := !(c.isAlphanum || c = '_') || c = '_'

/-- Replaces every maximal run of characters of the class `p` by the
empty string: `re.sub` of the pattern `class+` with replacement `""`. -/
def reSubEmptyRuns (p : Char → Bool) : List Char → List Char
  | [] => []
  | c :: cs =>
    if p c then reSubEmptyRuns p (cs.dropWhile p)
    else c :: reSubEmptyRuns p cs
termination_by l => l.length
decreasing_by
  · have h : (cs.dropWhile p).length ≤ cs.length := by
      induction cs with
      | nil => simp
      | cons a as ih =>
        by_cases hp : p a
        · rw [List.dropWhile_cons_of_pos hp]; simp only [List.length_cons]; omega
        · rw [List.dropWhile_cons_of_neg hp]
    simp only [List.length_cons]
    omega
  · simp

/-- Source: the sanitization in `collect_rumba_fbx_assets` —
`re.compile(r"[\W_]+", re.UNICODE).sub("", asset_name)`. -/
def fbx_assets_sanitized_name (asset_name : String) : String :=
  ⟨reSubEmptyRuns inClassWU asset_name.data⟩

/-- Source: the sanitization in `collect_rumba_usd_assets` (textually the
same as the FBX one). -/
def usd_assets_sanitized_name (asset_name : String) : String :=
  ⟨reSubEmptyRuns inClassWU asset_name.data⟩

/-- Source: the sanitization in `collect_rumba_abc_assets` (textually the
same as the FBX one). -/
def abc_assets_sanitized_name (asset_name : String) : String :=
  ⟨reSubEmptyRuns inClassWU asset_name.data⟩

/-- The `extra_fields` dict each per-asset collector stores on the item:
`{"name": sanitized_asset_name}`. -/
def extra_fields_of (sanitized_name : String) : List (String × String) :=
  [("name", sanitized_name)]

/-! ## Concrete documents used to instantiate the theorems -/

/-- A `UsdAsset` node that both carries a reference filename and has a
`file_path` plug — it is collected both by `find_nodes_with_reference`
and by the `UsdAsset` plug scan. -/
def dupUsdNode : RNode := .mk "u" "UsdAsset" "a" [("file_path", "b")] []

/-- A document whose only referenced node is `dupUsdNode`. -/
def dupUsdDoc : RNode := .mk "doc" "Document" "" [] [dupUsdNode]

/-- An `Asset` node referenced from `"x"`. -/
def assetNodeX : RNode := .mk "a" "Asset" "x" [] []

/-- A `Media` node with a `file` plug. -/
def mediaNodeF : RNode := .mk "m" "Media" "" [("file", "f.mov")] []

/-- A small well-named document with one `Asset` and one `Media` node. -/
def sampleDoc : RNode := .mk "doc" "Document" "" [] [assetNodeX, mediaNodeF]

/-- A scan item whose node name resolves in `sampleDoc`. -/
def sampleGoodItem : ScanEntry :=
  [("node", .item ⟨"t", "doc.a", "Asset"⟩), ("type", .str "file"), ("path", .str "y")]

/-- A scan item naming a node that does not exist in `sampleDoc` — models
a node deleted between scan and update. -/
def sampleBadItem : ScanEntry :=
  [("node", .item ⟨"t", "doc.zzz", "Asset"⟩), ("type", .str "file"), ("path", .str "y")]

/-- A loader environment with an active document, every file present, one
media format and no publish code. -/
def wLoaderEnv : LoaderEnv :=
  { hasDoc := true, fileExists := fun _ => true, mediaFormats := [".mov"],
    publishCode := none }

/-! ## General lemmas -/

/-- The entry the collection loop of `scan_scene` produces for one
collected node, if any. -/
def scanEntryOf (x : String × RNode) : Option ScanEntry :=
  match get_node_file_path x.2 with
  | some p => if p ≠ "" then some (mkScanEntry x.1 x.2 p) else none
  | none => none

/-- The collection loop keeps, in order, the entries of the nodes whose
resolved path is truthy. -/
theorem scanLoop_eq_filterMap (l : List (String × RNode)) :
    scanLoop l = l.filterMap scanEntryOf := by
  induction l with
  | nil => rfl
  | cons hd tl ih =>
    obtain ⟨fn, n⟩ := hd
    cases hg : get_node_file_path n with
    | none => simp [scanLoop, scanEntryOf, hg, ih]
    | some p =>
      by_cases hp : p = ""
      · subst hp; simp [scanLoop, scanEntryOf, hg, ih]
      · simp [scanLoop, scanEntryOf, hg, hp, ih]

/-- Characterization of the `scan_scene` collection loop: an entry is
produced exactly for the occurrences of nodes whose resolved file path is
truthy, and it is the dictionary built from that node and path. -/
theorem mem_scanLoop {l : List (String × RNode)} {e : ScanEntry} :
    e ∈ scanLoop l ↔
      ∃ x ∈ l, ∃ p, get_node_file_path x.2 = some p ∧ p ≠ "" ∧ e = mkScanEntry x.1 x.2 p := by
  rw [scanLoop_eq_filterMap, List.mem_filterMap]
  constructor
  · rintro ⟨x, hx, hfx⟩
    unfold scanEntryOf at hfx
    cases hg : get_node_file_path x.2 with
    | none => rw [hg] at hfx; cases hfx
    | some p =>
      rw [hg] at hfx
      by_cases hp : p = ""
      · subst hp; simp at hfx
      · simp only [if_pos hp, Option.some.injEq] at hfx
        exact ⟨x, hx, p, hg, hp, hfx.symm⟩
  · rintro ⟨x, hx, p, hg, hp, he⟩
    exact ⟨x, hx, by simp [scanEntryOf, hg, hp, he]⟩

/-- The collection loop produces one entry per occurrence of a node with a
truthy resolved path. -/
theorem scanLoop_length (l : List (String × RNode)) :
    (scanLoop l).length = (l.filter (fun x => pyTruthy (get_node_file_path x.2))).length := by
  induction l with
  | nil => rfl
  | cons hd tl ih =>
    obtain ⟨fn, n⟩ := hd
    cases hg : get_node_file_path n with
    | none => simp [scanLoop, List.filter_cons, hg, pyTruthy, ih]
    | some p =>
      by_cases hp : p = ""
      · subst hp; simp [scanLoop, List.filter_cons, hg, pyTruthy, ih]
      · simp [scanLoop, List.filter_cons, hg, hp, pyTruthy, ih]

/-! ## Claims C1 and C2 — `scan_scene` results -/

/-- C1 (amended): for every active document, `scan_scene` returns exactly
one entry per occurrence of a node in the concatenated collection lists
(reference scan, `UsdAsset` plug scan, `Media` plug scan) whose
`get_node_file_path` is non-empty; each entry is the dictionary built
from that node, with its `path` equal to the non-empty resolved path, and
occurrences with an empty or `None` resolved path are omitted. -/
theorem scan_scene_entries (d : RNode) :
    (scan_scene (some d)).length =
        ((scanNodes d).filter (fun x => pyTruthy (get_node_file_path x.2))).length ∧
    (∀ e ∈ scan_scene (some d),
        ∃ x ∈ scanNodes d, ∃ p, get_node_file_path x.2 = some p ∧ p ≠ "" ∧
          e = mkScanEntry x.1 x.2 p) ∧
    (∀ x ∈ scanNodes d, ∀ p, get_node_file_path x.2 = some p → p ≠ "" →
        mkScanEntry x.1 x.2 p ∈ scan_scene (some d)) := by
  refine ⟨scanLoop_length (scanNodes d), ?_, ?_⟩
  · intro e he
    rw [show scan_scene (some d) = scanLoop (scanNodes d) from rfl, mem_scanLoop] at he
    exact he
  · intro x hx p hg hp
    rw [show scan_scene (some d) = scanLoop (scanNodes d) from rfl, mem_scanLoop]
    exact ⟨x, hx, p, hg, hp, rfl⟩

/-- Witness for `scan_scene_entries`: in `sampleDoc`, the `Asset` node
`doc.a` resolves to the non-empty path `"x"`, and its dictionary is in the
scan result. -/
theorem scan_scene_entries_witness :
    mkScanEntry "doc.a" assetNodeX "x" ∈ scan_scene (some sampleDoc) := by
  have hmem : ("doc.a", assetNodeX) ∈ scanNodes sampleDoc := by
    rw [show scanNodes sampleDoc = [("doc.a", assetNodeX), ("doc.m", mediaNodeF)] from rfl]
    exact List.mem_cons_self _ _
  exact (scan_scene_entries sampleDoc).2.2 ("doc.a", assetNodeX) hmem "x" rfl (by decide)

/-- C1 (counterexample): in `dupUsdDoc` exactly one node of the whole
document tree has a truthy resolved file path (the `UsdAsset` node
`doc.u`, which both carries a reference filename and has a `file_path`
plug), yet `scan_scene` returns two entries for it — not "exactly one
result entry per node". -/
theorem scan_scene_one_entry_per_node_false :
    scan_scene (some dupUsdDoc) =
      [mkScanEntry "doc.u" dupUsdNode "b", mkScanEntry "doc.u" dupUsdNode "b"] ∧
    ((annotNode "" dupUsdDoc).filter (fun x => pyTruthy (get_node_file_path x.2))).length = 1 := by
  constructor
  · rfl
  · rfl

/-- C2 (amended): every dictionary returned by `scan_scene` has exactly
the three keys `node`, `type` and `path`, in that order: `node` holds the
`BreakdownSceneItem` display string (carrying the node's full document
name and its type as metadata), `type` is the constant string `"file"`,
and `path` is the non-empty path on disk of the referenced object. -/
theorem scan_scene_entry_keys (d : RNode) :
    ∀ e ∈ scan_scene (some d),
      e.map Prod.fst = ["node", "type", "path"] ∧
      entryGet e "type" = some (.str "file") ∧
      (∃ it : BreakdownSceneItem, entryGet e "node" = some (.item it)) ∧
      (∃ p, p ≠ "" ∧ entryGet e "path" = some (.str p)) := by
  intro e he
  rw [show scan_scene (some d) = scanLoop (scanNodes d) from rfl, mem_scanLoop] at he
  obtain ⟨x, _, p, _, hp, rfl⟩ := he
  exact ⟨rfl, rfl, ⟨mkBreakdownSceneItem x.1 x.2, rfl⟩, ⟨p, hp, rfl⟩⟩

/-- Witness for `scan_scene_entry_keys` at the first entry of
`sampleDoc`'s scan. -/
theorem scan_scene_entry_keys_witness :
    (mkScanEntry "doc.a" assetNodeX "x").map Prod.fst = ["node", "type", "path"] ∧
    entryGet (mkScanEntry "doc.a" assetNodeX "x") "type" = some (.str "file") := by
  have hmem : mkScanEntry "doc.a" assetNodeX "x" ∈ scan_scene (some sampleDoc) := by
    rw [show scan_scene (some sampleDoc) =
          [mkScanEntry "doc.a" assetNodeX "x", mkScanEntry "doc.m" mediaNodeF "f.mov"] from rfl]
    exact List.mem_cons_self _ _
  have h := scan_scene_entry_keys sampleDoc _ hmem
  exact ⟨h.1, h.2.1⟩

/-- C2 (counterexample): the dictionaries `scan_scene` returns carry the
key `node`, not `attr`, and their `type` value is the constant `"file"`,
not the node's object type (`"Asset"` here). -/
theorem scan_scene_attr_keys_false :
    (scan_scene (some sampleDoc)).map (fun e => e.map Prod.fst) =
      [["node", "type", "path"], ["node", "type", "path"]] ∧
    ("attr" ∈ ["node", "type", "path"]) = False ∧
    entryGet (mkScanEntry "doc.a" assetNodeX "x") "attr" = none ∧
    entryGet (mkScanEntry "doc.a" assetNodeX "x") "type" = some (.str "file") ∧
    RNode.type_name assetNodeX = "Asset" := by
  refine ⟨rfl, by simp, rfl, rfl, rfl⟩

/-! ## Claims C4 and C9 — frame-range hook -/

/-- C4: for every active document and all integers `a`, `b`,
`set_frame_range(a, b)` followed by `get_frame_range()` returns
`(a, b)`. -/
theorem set_get_frame_range_roundtrip (d : FrameDoc) (a b : Int) :
    get_frame_range (set_frame_range (some d) a b).1 = (a, b) := rfl

/-- C9: with no active document, `get_frame_range` returns `(0, 0)`, and
`set_frame_range` performs no mutation at all (no document change, no
event — in particular no `modify_begin`/`modify_end` bracket), for every
pair of arguments. -/
theorem frame_range_no_active_document :
    get_frame_range none = (0, 0) ∧
    ∀ a b : Int, set_frame_range none a b = (none, []) := by
  exact ⟨rfl, fun _ _ => rfl⟩

/-! ## Claim C5 — extension filtering in `execute_action` -/

/-- C5: for every path and each of the three action names, `execute_action`
raises (with no reference/import call performed — the trace is empty)
exactly when the lowercased `splitext` extension of the path is outside
the supported-format list for that action (`RUMBA_SUPPORTED_FORMATS` for
`reference`/`import`, the media formats for `import_media`), and only
proceeds to the corresponding operation otherwise. -/
theorem execute_action_extension_filtering (env : LoaderEnv) (path : String) :
    (is_a_supported_extension path = false →
        execute_action "reference" path env = ([], .error (unsupportedExtMsg path)) ∧
        execute_action "import" path env = ([], .error (unsupportedExtMsg path))) ∧
    (is_a_supported_extension path = true →
        (execute_action "reference" path env).2 = .ok () ∧
        (execute_action "import" path env).2 = .ok ()) ∧
    (is_a_supported_media_extension path env = false →
        execute_action "import_media" path env = ([], .error (unsupportedExtMsg path))) ∧
    (is_a_supported_media_extension path env = true →
        (execute_action "import_media" path env).2 = .ok ()) ∧
    (hasMut (execute_action "reference" path env).1 = true →
        is_a_supported_extension path = true) ∧
    (hasMut (execute_action "import" path env).1 = true →
        is_a_supported_extension path = true) ∧
    (hasMut (execute_action "import_media" path env).1 = true →
        is_a_supported_media_extension path env = true) := by
  by_cases hs : is_a_supported_extension path <;>
    by_cases hm : is_a_supported_media_extension path env <;>
      simp [execute_action, hs, hm, hasMut]

/-- Witness for `execute_action_extension_filtering`: an unsupported
extension is rejected with no event, supported ones proceed. -/
theorem execute_action_extension_filtering_witness :
    execute_action "reference" "/pub/asset.xyz" wLoaderEnv =
      ([], .error (unsupportedExtMsg "/pub/asset.xyz")) ∧
    (execute_action "import" "/pub/Asset.USD" wLoaderEnv).2 = .ok () ∧
    (execute_action "import_media" "/pub/clip.MOV" wLoaderEnv).2 = .ok () := by
  refine ⟨((execute_action_extension_filtering wLoaderEnv "/pub/asset.xyz").1 ?_).1,
          ((execute_action_extension_filtering wLoaderEnv "/pub/Asset.USD").2.1 ?_).2,
          (execute_action_extension_filtering wLoaderEnv "/pub/clip.MOV").2.2.2.1 ?_⟩
  · decide
  · decide
  · decide

/-! ## Claim C6 — `session_validate` -/

/-- C6 (amended): `session_validate` logs an error carrying the
`Save As...` remediation action and raises exactly when `_session_path()`
is falsy — that is, when the active document filename is `"untitled"`
(mapped to an absent path) or empty; for any other filename it stores the
normalized path in `item.properties["path"]` and returns without
raising. -/
theorem session_validate_behaviour (normalize : String → String) (hw : Bool)
    (filename : String) (props : ItemProps) :
    (filename = "untitled" ∨ filename = "" →
        session_validate normalize hw filename props =
          .error (sessionNotSavedMsg, get_save_as_action hw)) ∧
    (filename ≠ "untitled" → filename ≠ "" →
        session_validate normalize hw filename props =
          .ok (propsSet props "path" (normalize filename))) ∧
    (get_save_as_action hw).label = "Save As..." := by
  refine ⟨?_, ?_, rfl⟩
  · rintro (h | h) <;> subst h <;> simp [session_validate, session_path_of]
  · intro h1 h2
    simp [session_validate, session_path_of, h1, h2]

/-- Witness for `session_validate_behaviour`: the unsaved session raises,
a saved one stores the normalized path. -/
theorem session_validate_behaviour_witness :
    session_validate (fun s => s) true "untitled" [] =
      .error (sessionNotSavedMsg, get_save_as_action true) ∧
    session_validate (fun s => s) false "/proj/shot.rumba" [("x", "y")] =
      .ok [("x", "y"), ("path", "/proj/shot.rumba")] := by
  constructor
  · exact (session_validate_behaviour (fun s => s) true "untitled" []).1 (Or.inl rfl)
  · have h := (session_validate_behaviour (fun s => s) false "/proj/shot.rumba"
      [("x", "y")]).2.1 (by decide) (by decide)
    rw [h]; rfl

/-- C6 (counterexample): an empty document filename is not `"untitled"`,
so by the claim a session path exists and validation should pass — but
the code raises, because the empty string is falsy too. -/
theorem session_validate_untitled_only_false :
    session_validate (fun s => s) false "" [] =
      .error (sessionNotSavedMsg, get_save_as_action false) ∧
    ("" = "untitled") = False := by
  refine ⟨rfl, by simp⟩

/-! ## Claim C7 — `execute_multiple_actions` stops at the first failure -/

/-- C7: `execute_multiple_actions` dispatches its action dictionaries to
`execute_action` one by one in list order; the actions before the first
failing one have all been executed (the result trace is exactly the
concatenation of their traces), and once one raises, no later action is
executed and its error propagates. -/
theorem execute_multiple_actions_stops_at_first_failure (env : LoaderEnv)
    (acts : List LoaderAction) :
    ∃ pre rest, acts = pre ++ rest ∧
      (∀ a ∈ pre, (execute_action a.name a.path env).2 = .ok ()) ∧
      (execute_multiple_actions env acts).1 =
        (pre.map (fun a => (execute_action a.name a.path env).1)).flatten ∧
      ((rest = [] ∧ (execute_multiple_actions env acts).2 = none) ∨
        (∃ b rest2 e, rest = b :: rest2 ∧
          (execute_action b.name b.path env).2 = .error e ∧
          (execute_multiple_actions env acts).2 = some e)) := by
  induction acts with
  | nil =>
    exact ⟨[], [], rfl, by simp, by simp [execute_multiple_actions], Or.inl ⟨rfl, rfl⟩⟩
  | cons a rest0 ih =>
    rcases h : execute_action a.name a.path env with ⟨tr, r⟩
    cases r with
    | ok u =>
      cases u
      obtain ⟨pre, rest, hsplit, hok, htr, hlast⟩ := ih
      refine ⟨a :: pre, rest, by rw [List.cons_append, hsplit], ?_, ?_, ?_⟩
      · intro x hx
        rcases List.mem_cons.mp hx with hx | hx
        · subst hx; rw [h]
        · exact hok x hx
      · simp only [execute_multiple_actions, h, List.map_cons, List.flatten_cons]
        rw [htr]
      · rcases hlast with ⟨hrest, hres⟩ | ⟨b, rest2, e, hrest, hb, hres⟩
        · exact Or.inl ⟨hrest, by simp only [execute_multiple_actions, h]; exact hres⟩
        · exact Or.inr ⟨b, rest2, e, hrest, hb,
            by simp only [execute_multiple_actions, h]; exact hres⟩
    | error e =>
      refine ⟨[], a :: rest0, rfl, by simp, ?_, ?_⟩
      · simp [execute_multiple_actions, h]
      · exact Or.inr ⟨a, rest0, e, rfl, by rw [h], by simp [execute_multiple_actions, h]⟩

/-! ## Claim C10 — asset-name sanitization in the per-asset collectors -/

/-- Dropping a run shortens (weakly) the list. -/
theorem length_dropWhile_le_self (p : Char → Bool) (l : List Char) :
    (l.dropWhile p).length ≤ l.length := by
  induction l with
  | nil => simp
  | cons a as ih =>
    by_cases hq : p a
    · rw [List.dropWhile_cons_of_pos hq]
      simp only [List.length_cons]
      omega
    · rw [List.dropWhile_cons_of_neg hq]

/-- Dropping a run of class characters does not change the class-free
filtering of the rest. -/
theorem filter_dropWhile_eq (p : Char → Bool) (l : List Char) :
    (l.dropWhile p).filter (fun c => !p c) = l.filter (fun c => !p c) := by
  induction l with
  | nil => rfl
  | cons a as ih =>
    by_cases hp : p a
    · rw [List.dropWhile_cons_of_pos hp, ih, List.filter_cons]
      simp [hp]
    · rw [List.dropWhile_cons_of_neg hp]

/-- Replacing each maximal run of class characters by the empty string is
the same as deleting every class character. -/
theorem reSubEmptyRuns_eq_filter (p : Char → Bool) (l : List Char) :
    reSubEmptyRuns p l = l.filter (fun c => !p c) := by
  generalize hn : l.length = n
  induction n using Nat.strong_induction_on generalizing l with
  | _ n ih =>
    cases l with
    | nil => simp [reSubEmptyRuns]
    | cons c cs =>
      subst hn
      by_cases hp : p c
      · have hle : (cs.dropWhile p).length ≤ cs.length := length_dropWhile_le_self p cs
        rw [show reSubEmptyRuns p (c :: cs) = reSubEmptyRuns p (cs.dropWhile p) from by
          simp [reSubEmptyRuns, hp]]
        rw [ih (cs.dropWhile p).length (by simp only [List.length_cons]; omega)
          (cs.dropWhile p) rfl]
        rw [filter_dropWhile_eq, List.filter_cons]
        simp [hp]
      · rw [show reSubEmptyRuns p (c :: cs) = c :: reSubEmptyRuns p cs from by
          simp [reSubEmptyRuns, hp]]
        rw [ih cs.length (by simp) cs rfl, List.filter_cons]
        simp [hp]

/-- A character is outside the `[\W_]` class exactly when it is
alphanumeric. -/
theorem inClassWU_eq_not_isAlphanum (c : Char) : inClassWU c = !c.isAlphanum := by
  by_cases h : c = '_'
  · subst h; decide
  · simp [inClassWU, h]

/-- C10: the three per-asset collectors apply the same sanitization to the
asset name before storing it as the `name` extra field: every maximal run
matching `[\W_]+` is replaced by the empty string, which deletes exactly
the non-alphanumeric characters and the underscores, so the stored name
consists of alphanumeric characters only. -/
theorem asset_name_sanitization (s : String) :
    fbx_assets_sanitized_name s = usd_assets_sanitized_name s ∧
    fbx_assets_sanitized_name s = abc_assets_sanitized_name s ∧
    (fbx_assets_sanitized_name s).data = s.data.filter (fun c => c.isAlphanum) ∧
    (∀ c ∈ (fbx_assets_sanitized_name s).data, c.isAlphanum = true) ∧
    extra_fields_of (fbx_assets_sanitized_name s) =
      [("name", fbx_assets_sanitized_name s)] := by
  have hdata : (fbx_assets_sanitized_name s).data = s.data.filter (fun c => c.isAlphanum) := by
    show (reSubEmptyRuns inClassWU s.data) = _
    rw [reSubEmptyRuns_eq_filter]
    congr 1
    funext c
    rw [inClassWU_eq_not_isAlphanum]
    simp
  refine ⟨rfl, rfl, hdata, ?_, rfl⟩
  intro c hc
  rw [hdata] at hc
  exact (List.mem_filter.mp hc).2

/-- Witness for `asset_name_sanitization` on a concrete asset name. -/
theorem asset_name_sanitization_witness :
    fbx_assets_sanitized_name "As_set-01!" = "Asset01" := by
  have hdata := (asset_name_sanitization "As_set-01!").2.2.1
  have hfil : "As_set-01!".data.filter (fun c => c.isAlphanum) = "Asset01".data := by decide
  have : (fbx_assets_sanitized_name "As_set-01!").data = "Asset01".data := by
    rw [hdata, hfil]
  exact String.ext this

/-! ## Claim C3 — `update` on an unchanged scan is a no-op -/

/-- Writing back the value a plug lookup returned leaves the plug list
unchanged. -/
theorem setPlugVal_lookup_self (pl : List (String × String)) (k : String) :
    setPlugVal pl k (plugLookup pl k) = pl := by
  induction pl with
  | nil => rfl
  | cons hd ps ih =>
    obtain ⟨k0, v0⟩ := hd
    by_cases h : (k0 == k) = true
    · simp [setPlugVal, plugLookup, h]
    · simp only [setPlugVal, plugLookup, Bool.not_eq_true] at *
      rw [if_neg (by simp [h]), if_neg (by simp [h]), ih]

/-- Setting a node's file path to the very path `get_node_file_path`
resolved leaves the node unchanged. -/
theorem set_node_file_path_self (n : RNode) (p : String)
    (h : get_node_file_path n = some p) : set_node_file_path n p = n := by
  cases n with
  | mk nm tn rf pl ch =>
    by_cases h1 : tn = "Asset"
    · have : rf = p := by
        simpa [get_node_file_path, RNode.type_name, RNode.reference_filename, h1] using h
      simp [set_node_file_path, h1, this]
    · by_cases h2 : tn = "UsdAsset"
      · have : plugLookup pl "file_path" = p := by
          simpa [get_node_file_path, RNode.type_name, RNode.plug_as_string, RNode.plugs,
            h1, h2] using h
        simp [set_node_file_path, h1, h2, ← this, setPlugVal_lookup_self]
      · by_cases h3 : tn = "Media"
        · have : plugLookup pl "file" = p := by
            simpa [get_node_file_path, RNode.type_name, RNode.plug_as_string, RNode.plugs,
              h1, h2, h3] using h
          simp [set_node_file_path, h1, h2, h3, ← this, setPlugVal_lookup_self]
        · exfalso
          simp [get_node_file_path, RNode.type_name, h1, h2, h3] at h

mutual

/-- When the full name is nowhere in the subtree, `setAtNode` finds
nothing and rewrites nothing. -/
theorem setAtNode_not_found (pre fn v : String) (t : RNode)
    (h : fn ∉ (annotNode pre t).map Prod.fst) : setAtNode pre fn v t = (t, false) := by
  cases t with
  | mk nm tn rf pl ch =>
    have hhd : joinName pre nm ≠ fn := by
      intro he
      exact h (by rw [annotNode]; simp [he])
    have hch : fn ∉ (annotList (joinName pre nm) ch).map Prod.fst := by
      intro hm
      exact h (by rw [annotNode]; simp [hm])
    rw [setAtNode, if_neg hhd, setAtList_not_found (joinName pre nm) fn v ch hch]

/-- Forest version of `setAtNode_not_found`. -/
theorem setAtList_not_found (pre fn v : String) (l : List RNode)
    (h : fn ∉ (annotList pre l).map Prod.fst) : setAtList pre fn v l = (l, false) := by
  cases l with
  | nil => rfl
  | cons c cs =>
    have hc : fn ∉ (annotNode pre c).map Prod.fst := by
      intro hm
      exact h (by rw [annotList]; simp [hm])
    have hcs : fn ∉ (annotList pre cs).map Prod.fst := by
      intro hm
      exact h (by rw [annotList]; simp [hm])
    rw [setAtList, setAtNode_not_found pre fn v c hc,
      setAtList_not_found pre fn v cs hcs]
    simp

end

mutual

/-- In a subtree with pairwise-distinct full names, rewriting at the full
name of a node on which the write is the identity leaves the whole
subtree unchanged (and reports the node as found). -/
theorem setAtNode_found_id (pre fn v : String) (t : RNode) (n : RNode)
    (hnd : ((annotNode pre t).map Prod.fst).Nodup)
    (hmem : (fn, n) ∈ annotNode pre t)
    (hid : set_node_file_path n v = n) : setAtNode pre fn v t = (t, true) := by
  cases t with
  | mk nm tn rf pl ch =>
    by_cases he : joinName pre nm = fn
    · have hn : n = RNode.mk nm tn rf pl ch := by
        rw [annotNode, List.mem_cons] at hmem
        rcases hmem with hmem | hmem
        · exact (Prod.mk.injEq _ _ _ _ ▸ hmem).2
        · exfalso
          rw [annotNode] at hnd
          simp only [List.map_cons, List.nodup_cons] at hnd
          have hfn : fn ∈ (annotList (joinName pre nm) ch).map Prod.fst :=
            List.mem_map.mpr ⟨(fn, n), hmem, rfl⟩
          exact hnd.1 (he.symm ▸ hfn)
      subst hn
      rw [setAtNode, if_pos he, hid]
    · have hk : (fn, n) ∈ annotList (joinName pre nm) ch := by
        rw [annotNode, List.mem_cons] at hmem
        rcases hmem with hmem | hmem
        · exact absurd ((Prod.mk.injEq _ _ _ _ ▸ hmem).1.symm) he
        · exact hmem
      have hnd2 : ((annotList (joinName pre nm) ch).map Prod.fst).Nodup := by
        rw [annotNode] at hnd
        simp only [List.map_cons, List.nodup_cons] at hnd
        exact hnd.2
      rw [setAtNode, if_neg he,
        setAtList_found_id (joinName pre nm) fn v ch n hnd2 hk hid]

/-- Forest version of `setAtNode_found_id`. -/
theorem setAtList_found_id (pre fn v : String) (l : List RNode) (n : RNode)
    (hnd : ((annotList pre l).map Prod.fst).Nodup)
    (hmem : (fn, n) ∈ annotList pre l)
    (hid : set_node_file_path n v = n) : setAtList pre fn v l = (l, true) := by
  cases l with
  | nil => cases hmem
  | cons c cs =>
    rw [annotList] at hnd hmem
    rw [List.map_append] at hnd
    have hnd1 : ((annotNode pre c).map Prod.fst).Nodup := hnd.of_append_left
    have hnd2 : ((annotList pre cs).map Prod.fst).Nodup := hnd.of_append_right
    have hdisj := List.disjoint_of_nodup_append hnd
    rcases List.mem_append.mp hmem with hm | hm
    · rw [setAtList, setAtNode_found_id pre fn v c n hnd1 hm hid]
      simp
    · have hnotc : fn ∉ (annotNode pre c).map Prod.fst := by
        intro hin
        exact hdisj hin (List.mem_map.mpr ⟨(fn, n), hm, rfl⟩)
      rw [setAtList, setAtNode_not_found pre fn v c hnotc,
        setAtList_found_id pre fn v cs n hnd2 hm hid]
      simp

end

/-- Every node the three scans of `scan_scene` collect is a node of the
document tree (with its full document name). -/
theorem mem_scanNodes_sub (d : RNode) :
    ∀ x ∈ scanNodes d, x ∈ annotNode "" d := by
  intro x hx
  rcases List.mem_append.mp hx with hx | hx
  · rcases List.mem_append.mp hx with hx | hx
    · exact List.mem_of_mem_filter hx
    · exact List.mem_of_mem_filter hx
  · exact List.mem_of_mem_filter hx

/-- The per-item update loop, fed with items that resolve to tree nodes
on which the write is the identity, succeeds and returns the document
unchanged. -/
theorem updateLoop_id (d : RNode) (items : List ScanEntry)
    (hnd : wellNamed d)
    (hitems : ∀ i ∈ items, ∃ p it n, entryGet i "path" = some (.str p) ∧
        entryGet i "node" = some (.item it) ∧
        (it.node, n) ∈ annotNode "" d ∧ set_node_file_path n p = n) :
    (updateLoop d items).2 = .ok d := by
  induction items with
  | nil => rfl
  | cons i rest ih =>
    obtain ⟨p, it, n, hpath, hnode, hmem, hid⟩ := hitems i (List.mem_cons_self i rest)
    have hset : setAtNode "" it.node p d = (d, true) :=
      setAtNode_found_id "" it.node p d n hnd hmem hid
    simp only [updateLoop, hpath, hnode, hset]
    exact ih (fun j hj => hitems j (List.mem_cons_of_mem i hj))

/-- Every item `scan_scene` returns resolves (through its
`BreakdownSceneItem` metadata) to a document node on which writing back
the item's own path is the identity. -/
theorem scan_scene_items_resolve (d : RNode) :
    ∀ i ∈ scan_scene (some d), ∃ p it n, entryGet i "path" = some (.str p) ∧
      entryGet i "node" = some (.item it) ∧
      (it.node, n) ∈ annotNode "" d ∧ set_node_file_path n p = n := by
  intro i hi
  rw [show scan_scene (some d) = scanLoop (scanNodes d) from rfl, mem_scanLoop] at hi
  obtain ⟨x, hx, p, hg, hp, rfl⟩ := hi
  refine ⟨p, mkBreakdownSceneItem x.1 x.2, x.2, rfl, rfl, ?_, ?_⟩
  · show (x.1, x.2) ∈ annotNode "" d
    exact Prod.mk.eta ▸ mem_scanNodes_sub d x hx
  · exact set_node_file_path_self x.2 p hg

/-- C3: for every active document with pairwise-distinct full node names
(the host invariant behind `document.child` resolution), running `update`
on the exact item list `scan_scene` returned, with every `path`
unchanged, succeeds and leaves the document unchanged. -/
theorem update_scan_scene_noop (d : RNode) (h : wellNamed d) :
    (update (some d) (scan_scene (some d))).2 = .ok (some d) := by
  have hlp := updateLoop_id d (scan_scene (some d)) h (scan_scene_items_resolve d)
  simp only [update, hlp]

/-- Witness for `update_scan_scene_noop` on `sampleDoc`. -/
theorem update_scan_scene_noop_witness :
    wellNamed sampleDoc ∧
    (update (some sampleDoc) (scan_scene (some sampleDoc))).2 = .ok (some sampleDoc) :=
  ⟨by decide, update_scan_scene_noop sampleDoc (by decide)⟩

/-! ## Claim C8 — mutations inside `modify_begin`/`modify_end` brackets -/

/-- Bracket scanning distributes over concatenation. -/
theorem scanEv_append (t1 t2 : List REvent) :
    ∀ d, scanEv d (t1 ++ t2) = (scanEv d t1).bind (fun d2 => scanEv d2 t2) := by
  induction t1 with
  | nil => intro d; rfl
  | cons e tr ih =>
    intro d
    cases e with
    | modifyBegin lbl =>
      rw [List.cons_append, scanEv, scanEv]
      exact ih (d + 1)
    | modifyEnd =>
      rw [List.cons_append, scanEv, scanEv]
      by_cases hd : d = 0
      · simp [hd]
      · rw [if_neg hd, if_neg hd]
        exact ih (d - 1)
    | mutEv tg a =>
      rw [List.cons_append, scanEv, scanEv]
      by_cases hd : d = 0
      · simp [hd]
      · rw [if_neg hd, if_neg hd]
        exact ih d

/-- Two well-bracketed traces concatenate to a well-bracketed trace. -/
theorem wellBracketed_append {t1 t2 : List REvent}
    (h1 : wellBracketed t1 = true) (h2 : wellBracketed t2 = true) :
    wellBracketed (t1 ++ t2) = true := by
  unfold wellBracketed at *
  rw [scanEv_append]
  rw [beq_iff_eq] at h1 h2 ⊢
  rw [h1]
  exact h2

/-- A trace of mutation events only keeps any positive depth. -/
theorem scanEv_muts (tr : List REvent)
    (h : ∀ e ∈ tr, ∃ tg a, e = REvent.mutEv tg a) :
    ∀ d, d ≠ 0 → scanEv d tr = some d := by
  induction tr with
  | nil => intro d _; rfl
  | cons e tr2 ih =>
    intro d hd
    obtain ⟨tg, a, rfl⟩ := h e (List.mem_cons_self e tr2)
    rw [scanEv, if_neg hd]
    exact ih (fun x hx => h x (List.mem_cons_of_mem _ hx)) d hd

/-- The update loop only emits mutation events. -/
theorem updateLoop_trace_muts (items : List ScanEntry) :
    ∀ d : RNode, ∀ e ∈ (updateLoop d items).1, ∃ tg a, e = REvent.mutEv tg a := by
  induction items with
  | nil => intro d e he; cases he
  | cons i rest ih =>
    intro d e he
    cases hp : entryGet i "path" with
    | none => simp only [updateLoop, hp] at he; cases he
    | some vp =>
      cases vp with
      | item it0 => simp only [updateLoop, hp] at he; cases he
      | str p =>
        cases hq : entryGet i "node" with
        | none => simp only [updateLoop, hp, hq] at he; cases he
        | some vn =>
          cases vn with
          | str s0 => simp only [updateLoop, hp, hq] at he; cases he
          | item it =>
            simp only [updateLoop, hp, hq] at he
            by_cases hf : (setAtNode "" it.node p d).2 = true
            · rw [if_pos hf] at he
              rcases List.mem_cons.mp he with he | he
              · exact ⟨"set_node_file_path", it.node, he⟩
              · exact ih (setAtNode "" it.node p d).1 e he
            · rw [if_neg hf] at he
              cases he

/-- The trace of a successful `update` run is well bracketed, and even a
run that raises mid-loop only mutates after the opening `modify_begin`. -/
theorem update_trace_bracketed (doc : Option RNode) (items : List ScanEntry) :
    mutsInsideOpenBracket (update doc items).1 = true ∧
    (∀ r, (update doc items).2 = .ok r → wellBracketed (update doc items).1 = true) := by
  cases doc with
  | none => exact ⟨rfl, fun r _ => rfl⟩
  | some d =>
    have hmuts : ∀ e ∈ (updateLoop d items).1, ∃ tg a, e = REvent.mutEv tg a :=
      updateLoop_trace_muts items d
    have hscan : scanEv 1 (updateLoop d items).1 = some 1 :=
      scanEv_muts (updateLoop d items).1 hmuts 1 (by omega)
    cases hr : (updateLoop d items).2 with
    | ok d2 =>
      constructor
      · simp only [update, hr, mutsInsideOpenBracket, scanEv, List.cons_append,
          scanEv_append, hscan]
        rfl
      · intro r _
        simp only [update, hr, wellBracketed, scanEv, List.cons_append,
          scanEv_append, hscan]
        rfl
    | error e =>
      constructor
      · simp only [update, hr, mutsInsideOpenBracket, scanEv, hscan]
        rfl
      · intro r hcontra
        simp only [update, hr] at hcontra
        exact Except.noConfusion hcontra

/-- The three loader helpers emit well-bracketed traces. -/
theorem loader_helpers_bracketed (path : String) (env : LoaderEnv) :
    wellBracketed (reference_into_current_document path env) = true ∧
    wellBracketed (import_into_current_document path env) = true ∧
    wellBracketed (import_media_into_new_media_layer path env) = true := by
  by_cases h1 : env.hasDoc <;> by_cases h2 : env.fileExists path <;>
    simp [reference_into_current_document, import_into_current_document,
      import_media_into_new_media_layer, h1, h2, wellBracketed, scanEv]

/-- `execute_action` emits a well-bracketed trace whatever the action
name, the path and the environment. -/
theorem execute_action_trace_bracketed (name path : String) (env : LoaderEnv) :
    wellBracketed (execute_action name path env).1 = true := by
  have h := loader_helpers_bracketed path env
  by_cases hn1 : name = "reference"
  · by_cases hs : is_a_supported_extension path
    · simpa [execute_action, hn1, hs] using h.1
    · simp [execute_action, hn1, hs, wellBracketed, scanEv]
  · by_cases hn2 : name = "import"
    · by_cases hs : is_a_supported_extension path
      · simpa [execute_action, hn1, hn2, hs] using h.2.1
      · simp [execute_action, hn1, hn2, hs, wellBracketed, scanEv]
    · by_cases hn3 : name = "import_media"
      · by_cases hs : is_a_supported_media_extension path env
        · simpa [execute_action, hn1, hn2, hn3, hs] using h.2.2
        · simp [execute_action, hn1, hn2, hn3, hs, wellBracketed, scanEv]
      · simp [execute_action, hn1, hn2, hn3, wellBracketed, scanEv]

/-- C8 (amended): every adapter mutation happens after a `modify_begin`;
in every run that completes without raising, the whole trace is well
bracketed (each mutation lies between a `modify_begin` and its matching
`modify_end`).  An exception escaping mid-`update` leaves the earlier
mutations inside a bracket that is opened but never closed. -/
theorem adapter_mutations_bracketed :
    (∀ (doc : Option RNode) (items : List ScanEntry),
        mutsInsideOpenBracket (update doc items).1 = true ∧
        (∀ r, (update doc items).2 = .ok r →
          wellBracketed (update doc items).1 = true)) ∧
    (∀ (doc : Option FrameDoc) (a b : Int),
        wellBracketed (set_frame_range doc a b).2 = true) ∧
    (∀ (path : String) (env : LoaderEnv),
        wellBracketed (reference_into_current_document path env) = true ∧
        wellBracketed (import_into_current_document path env) = true ∧
        wellBracketed (import_media_into_new_media_layer path env) = true) ∧
    (∀ (name path : String) (env : LoaderEnv),
        wellBracketed (execute_action name path env).1 = true) ∧
    (∀ (env : LoaderEnv) (acts : List LoaderAction),
        wellBracketed (execute_multiple_actions env acts).1 = true) := by
  refine ⟨update_trace_bracketed, ?_, loader_helpers_bracketed,
    execute_action_trace_bracketed, ?_⟩
  · intro doc a b
    cases doc with
    | none => rfl
    | some d => rfl
  · intro env acts
    induction acts with
    | nil => rfl
    | cons a rest ih =>
      rcases h : execute_action a.name a.path env with ⟨tr, r⟩
      cases r with
      | ok u =>
        cases u
        have htr : wellBracketed tr = true := by
          have := execute_action_trace_bracketed a.name a.path env
          rw [h] at this
          exact this
        simp only [execute_multiple_actions, h]
        exact wellBracketed_append htr ih
      | error e => simp [execute_multiple_actions, h, wellBracketed, scanEv]

/-- Witness for `adapter_mutations_bracketed`: a completed `update` run on
`sampleDoc` has a well-bracketed trace. -/
theorem adapter_mutations_bracketed_witness :
    wellBracketed (update (some sampleDoc) (scan_scene (some sampleDoc))).1 = true :=
  (adapter_mutations_bracketed.1 (some sampleDoc) (scan_scene (some sampleDoc))).2
    (some sampleDoc) rfl

/-- C8 (counterexample): when the second item of an `update` batch names a
node that no longer exists, the run mutates the first node after
`modify_begin` and then raises, so the trace contains a mutation but no
`modify_end` at all — the mutation is not between a `modify_begin` and a
matching `modify_end`. -/
theorem adapter_mutations_bracketed_false :
    hasMut (update (some sampleDoc) [sampleGoodItem, sampleBadItem]).1 = true ∧
    hasEnd (update (some sampleDoc) [sampleGoodItem, sampleBadItem]).1 = false ∧
    (update (some sampleDoc) [sampleGoodItem, sampleBadItem]).2 = .error "AttributeError" ∧
    wellBracketed (update (some sampleDoc) [sampleGoodItem, sampleBadItem]).1 = false := by
  exact ⟨rfl, rfl, rfl, rfl⟩
